import Mathlib

/-!
Shallow embedding of the ILLIXR plugin runtime core.

Embedded from src/runtime/runtime_impl.hpp:
the runtime orchestrator (class runtime_impl) with its phonebook of built-in
services, its vectors of loaded dynamic libraries and plugin instances, its
atomic terminate flag, and the operations load_so (both overloads),
load_plugin_factory, wait, stop and the destructor.

Embedded from src/unnamed/part_000 (the offload_data plugin):
the constructor (switchboard lookup), the destructor (conditional removal and
recreation of the output directory followed by writeDataToDisk), and the
private helpers writeDataToDisk and writeMetadata.

Machine integers are modelled as Nat/Int with explicit reduction modulo a
power of two where C++ unsigned wrap-around matters (size_t subtraction,
long-to-int narrowing in the sort comparator). Floating-point statistics are
modelled exactly over the rationals; the square root taken by the C++ code is
represented by recording both operands of the division under the root, since
no claim concerns the rounded numeric value. Fatal paths and undefined
behaviour are modelled with Option. Filesystem and process effects are
modelled as explicit action traces.
-/

namespace ILLIXR

/-- Capability types that runtime_impl registers into its phonebook
(record_logger, gen_guid, switchboard, xlib_gl_extended_window,
realtime_clock), from the constructor in src/runtime/runtime_impl.hpp. -/
inductive Capability
  | record_logger
  | gen_guid
  | switchboard
  | xlib_gl_extended_window
  | realtime_clock
deriving DecidableEq

/-- A phonebook is the service registry: an association list from capability
type to the identity of the registered shared instance. Instances are
abstracted to numeric identities; identity equality models shared-pointer
identity. -/
abbrev Phonebook := List (Capability × Nat)

/-- Modelled from the spec: phonebook lookup (lookup_impl) returns the shared
instance registered for a capability, and is fatal (none) when the capability
is absent. The body of common/phonebook.hpp is not part of the given sources;
only its call sites in runtime_impl.hpp and the offload plugin are. -/
def lookup_impl (pb : Phonebook) (c : Capability) : Option Nat :=
  (pb.find? (fun e => e.1 = c)).map (fun e => e.2)

/-- Modelled from the spec: phonebook registration (register_impl) installs an
implementation for a capability and is fatal (none) on a duplicate
registration; there is no overwrite and no unregistration. The body of
common/phonebook.hpp is not part of the given sources. -/
def register_impl (pb : Phonebook) (c : Capability) (inst : Nat) : Option Phonebook :=
  match lookup_impl pb c with
  | some _ => none
  | none => some (pb ++ [(c, inst)])

/-- Instance identity assigned to each built-in service, in the order the
runtime_impl constructor registers them. -/
def builtin_inst : Capability → Nat
  | .record_logger => 0
  | .gen_guid => 1
  | .switchboard => 2
  | .xlib_gl_extended_window => 3
  | .realtime_clock => 4

/-- The five register_impl calls of the runtime_impl constructor, in source
order: sqlite_record_logger, gen_guid, switchboard, xlib_gl_extended_window,
realtime_clock. The whole chain is fatal if any single registration is. -/
def initPB : Option Phonebook :=
  (register_impl [] .record_logger (builtin_inst .record_logger)).bind (fun p1 =>
  (register_impl p1 .gen_guid (builtin_inst .gen_guid)).bind (fun p2 =>
  (register_impl p2 .switchboard (builtin_inst .switchboard)).bind (fun p3 =>
  (register_impl p3 .xlib_gl_extended_window (builtin_inst .xlib_gl_extended_window)).bind (fun p4 =>
  register_impl p4 .realtime_clock (builtin_inst .realtime_clock)))))

/-- State of a runtime_impl object: the phonebook pb, the vector libs of
loaded dynamic libraries (represented by their paths, in push order), the
vector plugins of plugin instances (represented by creation identities, in
vector order), a counter supplying fresh instance identities, the log of
every start() invocation made so far (instance identities, in call order),
and the atomic terminate flag. -/
structure OrchState where
  pb : Phonebook
  libs : List String
  plugins : List Nat
  nextId : Nat
  starts : List Nat
  terminate : Bool
deriving DecidableEq

/-- The state constructed by runtime_impl's constructor: the five built-in
services registered (initPB), no libs, no plugins, terminate false. -/
def runtime_init : OrchState :=
  { pb := [(.record_logger, 0), (.gen_guid, 1), (.switchboard, 2),
           (.xlib_gl_extended_window, 3), (.realtime_clock, 4)],
    libs := [], plugins := [], nextId := 0, starts := [], terminate := false }

/-- load_plugin_factory(plugin_main): emplace a freshly constructed plugin
instance at the back of the plugins vector, then call start() on it. -/
def load_plugin_factory (s : OrchState) : OrchState :=
  { s with plugins := s.plugins ++ [s.nextId],
           nextId := s.nextId + 1,
           starts := s.starts ++ [s.nextId] }

/-- The single-path overload load_so(so): open the dynamic library, resolve
this_plugin_factory, run load_plugin_factory on it, then push the library
onto libs. -/
def load_so_single (s : OrchState) (path : String) : OrchState :=
  let s1 := load_plugin_factory s
  { s1 with libs := s1.libs ++ [path] }

/-- The vector overload load_so(so_paths): append one opened library per path
to libs; then build one factory per element of the WHOLE libs vector
(including libraries opened by earlier load calls); then append one freshly
constructed plugin instance per such factory to the plugins vector; then call
start() on EVERY element of the plugins vector, including instances created
by earlier load calls. This mirrors the three std::transform calls and the
std::for_each in src/runtime/runtime_impl.hpp lines 29-46, whose iteration
ranges are libs.cbegin()..libs.cend() and plugins.cbegin()..plugins.cend(). -/
def load_so_vec (s : OrchState) (paths : List String) : OrchState :=
  let libs2 := s.libs ++ paths
  let k := libs2.length
  let newIds := (List.range k).map (fun i => s.nextId + i)
  let plugins2 := s.plugins ++ newIds
  { s with libs := libs2,
           plugins := plugins2,
           nextId := s.nextId + k,
           starts := s.starts ++ plugins2 }

/-- The load operations a host can invoke on the orchestrator after
construction, in any number and combination. -/
inductive Cmd
  | loadFactory
  | loadSingle (path : String)
  | loadVec (paths : List String)
deriving DecidableEq

/-- One load operation applied to the orchestrator state. -/
def step (s : OrchState) : Cmd → OrchState
  | .loadFactory => load_plugin_factory s
  | .loadSingle p => load_so_single s p
  | .loadVec ps => load_so_vec s ps

/-- Run a sequence of load operations from a given state. -/
def runFrom (s : OrchState) : List Cmd → OrchState
  | [] => s
  | c :: cs => runFrom (step s c) cs

/-- Run a sequence of load operations on a freshly constructed runtime. -/
def runCmds (cs : List Cmd) : OrchState := runFrom runtime_init cs

/-- Observable events emitted by runtime_impl::stop, in emission order. -/
inductive REvent
  | sbStop
  | pluginStop (id : Nat)
  | setTerminate
deriving DecidableEq

/-- runtime_impl::stop: look up the switchboard (fatal if absent) and stop
it; then stop every plugin in vector (load) order; then store true into the
terminate flag. The returned list is the emitted event trace in order. -/
def runtime_stop (s : OrchState) : Option (OrchState × List REvent) :=
  match lookup_impl s.pb .switchboard with
  | none => none
  | some _ =>
      some ({ s with terminate := true },
            REvent.sbStop :: (s.plugins.map REvent.pluginStop ++ [REvent.setTerminate]))

/-- Outcome of running the runtime_impl destructor. -/
inductive DtorOutcome
  | abortedWithDiagnostic
  | completed
deriving DecidableEq

/-- runtime_impl destructor: if the terminate flag is still false, print a
diagnostic to stderr and abort(); otherwise complete normally. -/
def runtime_dtor (s : OrchState) : DtorOutcome :=
  if s.terminate then DtorOutcome.completed else DtorOutcome.abortedWithDiagnostic

/-- runtime_impl::wait, with the terminate flag viewed as a function of
discrete time (one tick per loop iteration, i.e. per 10 ms sleep): at time t,
load the flag; if true return, else sleep 10 milliseconds and repeat at time
t + 1. Fuel bounds the number of iterations examined; none means the loop
has not returned within the fuel. The result records the return time and the
list of sleep durations performed, in order. -/
def runtime_wait (flag : Nat → Bool) : Nat → Nat → Option (Nat × List Nat)
  | _, 0 => none
  | t, fuel + 1 =>
      if flag t then some (t, [])
      else
        match runtime_wait flag (t + 1) fuel with
        | none => none
        | some (t2, sleeps) => some (t2, 10 :: sleeps)

/-- Paths contributed to libs by one load operation. -/
def cmdPaths : Cmd → List String
  | .loadFactory => []
  | .loadSingle p => [p]
  | .loadVec ps => ps

/-- Whether a load operation is the vector overload of load_so. -/
def isVec : Cmd → Bool
  | .loadVec _ => true
  | _ => false

/-- A command sequence in which the vector overload of load_so appears at
most as the very first operation. -/
def vecOnlyFirst : List Cmd → Bool
  | [] => true
  | _ :: rest => rest.all (fun c => !(isVec c))

/-- The fields of a texture_pose datum that the offload plugin observes:
whether stbi_write_png succeeds on its image, and the offload_duration in
milliseconds (the value pushed onto the time sequence). The pose fields that
are merely serialised verbatim are not modelled. -/
structure TexturePose where
  encodeOk : Bool
  durationMs : Int
deriving DecidableEq

/-- Filesystem and process actions performed by the offload plugin, in
emission order. -/
inductive FsAct
  | removeAll (dir : String)
  | createDirs (dir : String)
  | writeFile (path : String)
  | reportError (msg : String)
  | abortPluginOp
  | abortProcess
deriving DecidableEq

/-- Modelled from the spec: the behaviour of the error helper the offload
plugin calls on an image-encode failure. Its body (common/error_util.hpp) is
not part of the given sources; per the spec, the failure is reported and
aborts that plugin operation, not the whole process. -/
def ILLIXR_abort (msg : String) : List FsAct :=
  [FsAct.reportError msg, FsAct.abortPluginOp]

/-- size_t subtraction of one, as computed by _time_seq.size() - 1 in C++:
unsigned 64-bit arithmetic, so 0 - 1 wraps to 2 ^ 64 - 1. -/
def sizeT_sub_one (n : Nat) : Nat := (n + (2 ^ 64 - 1)) % 2 ^ 64

/-- The stdev divisor writeMetadata computes for a given time sequence. -/
def stdevDivisorOf (ts : List Int) : Nat := sizeT_sub_one ts.length

/-- Narrowing of a C++ long to int, as performed on both arguments of the
sort comparator in writeMetadata: two-sided complement wrap into
[-2 ^ 31, 2 ^ 31). -/
def toInt32 (x : Int) : Int := (x + 2 ^ 31) % 2 ^ 32 - 2 ^ 31

/-- The comparator handed to std::sort in writeMetadata is
(int x, int y) (x > y) applied to long elements, so each element is narrowed
to int first. As a non-strict ordering: x may precede y when the narrowed y
is at most the narrowed x. -/
def cmpDescLe (x y : Int) : Bool := decide (toInt32 y ≤ toInt32 x)

/-- The descending sort std::sort performs in writeMetadata: a permutation of
the input that is pairwise ordered by cmpDescLe. (std::sort leaves the order
of comparator-equal elements unspecified; a merge sort is one admissible
choice, and the theorems use only the permutation and sortedness.) -/
def sortDesc (ts : List Int) : List Int := ts.mergeSort cmpDescLe

/-- First maximum of a nonempty scan, as std::max_element computes it. -/
def scanMax (t : Int) (rest : List Int) : Int := rest.foldl max t

/-- First minimum of a nonempty scan, as std::min_element computes it. -/
def scanMin (t : Int) (rest : List Int) : Int := rest.foldl min t

/-- Contents of metadata.out as written by writeMetadata: mean (with its
divisor, the sequence length), maximum, minimum, the stdev operands (the
accumulated sum of squared deviations from the mean, and the size_t divisor
size - 1; the C++ code writes the square root of their quotient), the total
count, the raw time sequence, and the sequence sorted by the descending
comparator. Statistics are exact rationals where the C++ uses doubles. -/
structure MetaOut where
  mean : ℚ
  meanDivisor : Nat
  maxv : Int
  minv : Int
  accum : ℚ
  stdevDivisor : Nat
  total : Nat
  raw : List Int
  ordered : List Int
deriving DecidableEq

/-- offload_data::writeMetadata: for a nonempty time sequence, compute and
write all statistics; for the empty sequence the dereferences of
std::max_element and std::min_element results are past the end (undefined
behaviour), modelled as none. -/
def writeMetadata (ts : List Int) : Option MetaOut :=
  match ts with
  | [] => none
  | t :: rest =>
      let n := (t :: rest).length
      let mean : ℚ := ((t :: rest).map (fun x => (x : ℚ))).sum / n
      let accum : ℚ := ((t :: rest).map (fun x => ((x : ℚ) - mean) * ((x : ℚ) - mean))).sum
      some { mean := mean,
             meanDivisor := n,
             maxv := scanMax t rest,
             minv := scanMin t rest,
             accum := accum,
             stdevDivisor := stdevDivisorOf (t :: rest),
             total := n,
             raw := t :: rest,
             ordered := sortDesc (t :: rest) }

/-- The per-frame loop of offload_data::writeDataToDisk, starting at image
index idx: for each datum, push its offload duration onto the time sequence,
then attempt the png write (on failure, report the error and abort this
plugin operation, ending the loop), then write the pose text file. Returns
the emitted actions, the collected time sequence, and whether the loop ran
to completion. -/
def writeFrames (dir : String) (idx : Nat) : List TexturePose → (List FsAct × List Int × Bool)
  | [] => ([], [], true)
  | d :: rest =>
      let img := dir ++ toString idx ++ ".png"
      let pose := dir ++ toString idx ++ ".txt"
      if d.encodeOk then
        let r := writeFrames dir (idx + 1) rest
        (FsAct.writeFile img :: FsAct.writeFile pose :: r.1, d.durationMs :: r.2.1, r.2.2)
      else
        (ILLIXR_abort "Image create failed !!! ", [d.durationMs], false)

/-- offload_data::writeDataToDisk: run the frame loop from image index 0,
then (only if the loop completed) run writeMetadata on the collected time
sequence and write metadata.out. The Bool records whether execution stayed
inside defined behaviour: it is false exactly when the completed loop hands
writeMetadata an empty time sequence. -/
def writeDataToDisk (dir : String) (container : List TexturePose) : (List FsAct × Bool) :=
  let r := writeFrames dir 0 container
  if r.2.2 then
    match writeMetadata r.2.1 with
    | none => (r.1, false)
    | some _ => (r.1 ++ [FsAct.writeFile (dir ++ "metadata.out")], true)
  else (r.1, true)

/-- The offload_data plugin state fixed at construction: the switchboard
instance looked up from the phonebook, the enable_offload flag (from
ILLIXR_OFFLOAD_ENABLE) and the output directory (from ILLIXR_OFFLOAD_PATH).
Construction is fatal (none) if the switchboard lookup is. -/
structure OffloadCfg where
  sb : Nat
  enable_offload : Bool
  obj_dir : String
deriving DecidableEq

/-- offload_data::offload_data: look up the switchboard in the phonebook and
bind it, record the environment-derived flags, and subscribe to the
texture_pose topic. -/
def offload_mk (pb : Phonebook) (enable : Bool) (dir : String) : Option OffloadCfg :=
  match lookup_impl pb Capability.switchboard with
  | none => none
  | some i => some { sb := i, enable_offload := enable, obj_dir := dir }

/-- offload_data destructor: when enable_offload is set, remove the output
directory recursively, recreate it, and run writeDataToDisk on the
accumulated container; when it is not set, perform no filesystem action.
Returns the action trace and the defined-behaviour flag of the write. -/
def offload_dtor (enable : Bool) (dir : String) (container : List TexturePose) :
    (List FsAct × Bool) :=
  if enable then
    let w := writeDataToDisk dir container
    (FsAct.removeAll dir :: FsAct.createDirs dir :: w.1, w.2)
  else ([], true)

/-- Whether file f lies under directory path d (string-prefix containment,
matching recursive removal of everything under d). -/
def underDir (d f : String) : Bool := d.data.isPrefixOf f.data

/-- Effect of one action on a set of existing files (paths). removeAll
deletes every file under the directory; createDirs creates no file;
writeFile creates (or overwrites) one file; error reporting and aborts touch
no file. -/
def applyAct (files : List String) : FsAct → List String
  | .removeAll d => files.filter (fun f => !(underDir d f))
  | .createDirs _ => files
  | .writeFile p => files ++ [p]
  | .reportError _ => files
  | .abortPluginOp => files
  | .abortProcess => files

/-- Effect of an action trace on a set of existing files, in order. -/
def applyActs (files : List String) : List FsAct → List String
  | [] => files
  | a :: acts => applyActs (applyAct files a) acts

/-- Start-count invariant: every plugin instance in the vector has been
started exactly once, and every identity seen so far is below the fresh
counter. -/
def InvStart (s : OrchState) : Prop :=
  (∀ id ∈ s.plugins, s.starts.count id = 1) ∧
  (∀ id ∈ s.starts, id < s.nextId) ∧
  (∀ id ∈ s.plugins, id < s.nextId)

lemma step_pb (s : OrchState) (c : Cmd) : (step s c).pb = s.pb := by
  cases c <;> rfl

lemma runFrom_pb (cs : List Cmd) : ∀ s : OrchState, (runFrom s cs).pb = s.pb := by
  induction cs with
  | nil => intro s; rfl
  | cons c cs ih => intro s; rw [runFrom, ih, step_pb]

lemma step_libs (s : OrchState) (c : Cmd) : (step s c).libs = s.libs ++ cmdPaths c := by
  cases c with
  | loadFactory => simp [step, load_plugin_factory, cmdPaths]
  | loadSingle p => rfl
  | loadVec ps => rfl

lemma runFrom_libs (cs : List Cmd) :
    ∀ s : OrchState, (runFrom s cs).libs = s.libs ++ (cs.map cmdPaths).flatten := by
  induction cs with
  | nil => intro s; simp [runFrom]
  | cons c cs ih =>
      intro s
      rw [runFrom, ih, step_libs]
      simp [List.append_assoc]

/-- C1: runtime_impl::stop stops the switchboard first, then stops every
plugin in load order, and raises the terminate flag last: whenever the
switchboard lookup succeeds, the emitted event trace is exactly the
switchboard stop, followed by one stop per plugin in vector (load) order,
followed by the terminate store, and the post-state has terminate true. In
particular no plugin stop event can precede the switchboard stop, for every
sequence of loaded plugins. -/
theorem stop_order_spec (s : OrchState) (i : Nat)
    (h : lookup_impl s.pb Capability.switchboard = some i) :
    runtime_stop s =
      some ({ s with terminate := true },
            REvent.sbStop :: (s.plugins.map REvent.pluginStop ++ [REvent.setTerminate])) := by
  unfold runtime_stop
  rw [h]

/-- Witness for stop_order_spec at a freshly constructed runtime. -/
theorem stop_order_spec_witness :
    runtime_stop runtime_init =
      some ({ runtime_init with terminate := true },
            REvent.sbStop :: (runtime_init.plugins.map REvent.pluginStop ++ [REvent.setTerminate])) :=
  stop_order_spec runtime_init 2 rfl

/-- C3: the runtime_impl destructor aborts with a diagnostic exactly when the
terminate flag is still false, completes when it is true, and in particular
completes on any state produced by stop. -/
theorem dtor_abort_spec (s : OrchState) :
    (s.terminate = false → runtime_dtor s = DtorOutcome.abortedWithDiagnostic) ∧
    (s.terminate = true → runtime_dtor s = DtorOutcome.completed) ∧
    (∀ r : OrchState × List REvent, runtime_stop s = some r →
        runtime_dtor r.1 = DtorOutcome.completed) := by
  refine ⟨fun h => by simp [runtime_dtor, h], fun h => by simp [runtime_dtor, h], ?_⟩
  intro r hr
  unfold runtime_stop at hr
  cases hlk : lookup_impl s.pb Capability.switchboard with
  | none => rw [hlk] at hr; cases hr
  | some j =>
      rw [hlk] at hr
      cases hr
      simp [runtime_dtor]

/-- Witness for dtor_abort_spec: a fresh runtime destructs to an abort, and
the state left by stop destructs to normal completion. -/
theorem dtor_abort_spec_witness :
    runtime_dtor runtime_init = DtorOutcome.abortedWithDiagnostic ∧
    runtime_dtor ({ runtime_init with terminate := true }) = DtorOutcome.completed :=
  ⟨(dtor_abort_spec runtime_init).1 rfl,
   (dtor_abort_spec runtime_init).2.2
     ({ runtime_init with terminate := true },
      REvent.sbStop :: (runtime_init.plugins.map REvent.pluginStop ++ [REvent.setTerminate]))
     rfl⟩

/-- C5: all five built-in services are registered during construction (the
registration chain succeeds and yields exactly the initial phonebook), no
load operation ever changes the phonebook, and every capability resolves in
the initial phonebook to the instance the constructor registered; hence the
registry is fully populated whenever any plugin factory runs. -/
theorem services_registered_spec :
    initPB = some runtime_init.pb ∧
    (∀ cs : List Cmd, (runCmds cs).pb = runtime_init.pb) ∧
    (∀ c : Capability, lookup_impl runtime_init.pb c = some (builtin_inst c)) := by
  refine ⟨rfl, fun cs => runFrom_pb cs runtime_init, fun c => ?_⟩
  cases c <;> rfl

/-- C8: library handles only accumulate: after any sequence of load
operations the libs vector is the original one extended, in order, by
exactly the paths the loads supplied, and stop leaves libs untouched. No
orchestrator operation removes or closes a handle. -/
theorem libs_retained_spec (s : OrchState) (cs : List Cmd) :
    (runFrom s cs).libs = s.libs ++ (cs.map cmdPaths).flatten ∧
    (∀ r : OrchState × List REvent, runtime_stop s = some r → r.1.libs = s.libs) := by
  refine ⟨runFrom_libs cs s, ?_⟩
  intro r hr
  unfold runtime_stop at hr
  cases hlk : lookup_impl s.pb Capability.switchboard with
  | none => rw [hlk] at hr; cases hr
  | some j => rw [hlk] at hr; cases hr; rfl

/-- Witness for libs_retained_spec on a concrete load sequence and on the
stop transition of a fresh runtime. -/
theorem libs_retained_spec_witness :
    (runFrom runtime_init [Cmd.loadSingle "a", Cmd.loadVec ["b", "c"]]).libs =
      runtime_init.libs ++ ([Cmd.loadSingle "a", Cmd.loadVec ["b", "c"]].map cmdPaths).flatten ∧
    (({ runtime_init with terminate := true } : OrchState)).libs = runtime_init.libs :=
  ⟨(libs_retained_spec runtime_init [Cmd.loadSingle "a", Cmd.loadVec ["b", "c"]]).1,
   (libs_retained_spec runtime_init []).2
     ({ runtime_init with terminate := true },
      REvent.sbStop :: (runtime_init.plugins.map REvent.pluginStop ++ [REvent.setTerminate]))
     rfl⟩

/-- C6: runtime_impl::wait returns only after the terminate flag is
observed true: whenever the poll loop returns, the flag is true at the
return instant, the flag was false at every earlier poll instant since the
call, and the loop slept exactly once per elapsed instant, each time for the
fixed 10 millisecond interval. -/
theorem wait_blocks_spec (flag : Nat → Bool) (t fuel t2 : Nat) (sleeps : List Nat)
    (h : runtime_wait flag t fuel = some (t2, sleeps)) :
    flag t2 = true ∧ t ≤ t2 ∧ (∀ u, t ≤ u → u < t2 → flag u = false) ∧
      sleeps = List.replicate (t2 - t) 10 := by
  induction fuel generalizing t sleeps with
  | zero => simp [runtime_wait] at h
  | succ n ih =>
      rw [runtime_wait] at h
      by_cases hf : flag t
      · rw [if_pos hf] at h
        simp only [Option.some.injEq, Prod.mk.injEq] at h
        obtain ⟨rfl, rfl⟩ := h
        exact ⟨hf, Nat.le_refl _,
          fun u hu1 hu2 => absurd (Nat.lt_of_le_of_lt hu1 hu2) (Nat.lt_irrefl _), by simp⟩
      · rw [if_neg hf] at h
        cases hr : runtime_wait flag (t + 1) n with
        | none => rw [hr] at h; cases h
        | some r =>
            rw [hr] at h
            obtain ⟨t2b, sl⟩ := r
            simp only [Option.some.injEq, Prod.mk.injEq] at h
            obtain ⟨rfl, rfl⟩ := h
            obtain ⟨h1, h2, h3, h4⟩ := ih (t + 1) sl hr
            refine ⟨h1, by omega, ?_, ?_⟩
            · intro u hu1 hu2
              rcases Nat.eq_or_lt_of_le hu1 with he | hl
              · rw [← he]; exact Bool.eq_false_iff.mpr hf
              · exact h3 u hl hu2
            · rw [h4]
              have hrep : t2b - t = (t2b - (t + 1)) + 1 := by omega
              rw [hrep, List.replicate_succ]

/-- Witness for wait_blocks_spec with a flag raised at instant 2 and fuel 5:
the loop returns at instant 2 after two 10 millisecond sleeps. -/
theorem wait_blocks_spec_witness :
    (fun u => decide (2 ≤ u)) 2 = true ∧ 0 ≤ 2 ∧
    (∀ u, 0 ≤ u → u < 2 → (fun u => decide (2 ≤ u)) u = false) ∧
    ([10, 10] : List Nat) = List.replicate (2 - 0) 10 :=
  wait_blocks_spec (fun u => decide (2 ≤ u)) 0 5 2 [10, 10] (by decide)

/-- Counterexample to C2 as stated: after load_plugin_factory followed by
the vector overload of load_so, the instance created by the first call (id
0) is in the plugins vector and has received start() twice, because the
vector overload calls start() on every element of the whole plugins vector. -/
theorem start_once_cex :
    0 ∈ (runCmds [Cmd.loadFactory, Cmd.loadVec ["b"]]).plugins ∧
    (runCmds [Cmd.loadFactory, Cmd.loadVec ["b"]]).starts.count 0 = 2 := by
  constructor <;> decide

lemma invStart_init : InvStart runtime_init := by
  refine ⟨?_, ?_, ?_⟩ <;> intro id h <;> simp [runtime_init] at h

lemma invStart_loadFactory (s : OrchState) (h : InvStart s) :
    InvStart (load_plugin_factory s) := by
  obtain ⟨h1, h2, h3⟩ := h
  refine ⟨?_, ?_, ?_⟩
  · intro id hid
    have hcc : ((s.starts ++ [s.nextId]).count id) =
        s.starts.count id + (if s.nextId = id then 1 else 0) := by
      simp [List.count_append, List.count_cons]
    simp only [load_plugin_factory] at hid ⊢
    rcases List.mem_append.mp hid with hin | hnew
    · have hne : id ≠ s.nextId := Nat.ne_of_lt (h3 id hin)
      rw [hcc, if_neg (fun hx => hne hx.symm), h1 id hin]
    · have heq : id = s.nextId := by simpa using hnew
      have hzero : s.starts.count id = 0 :=
        List.count_eq_zero.mpr (fun hmem => absurd (h2 id hmem) (by omega))
      rw [hcc, if_pos heq.symm, hzero]
  · intro id hid
    simp only [load_plugin_factory] at hid ⊢
    rcases List.mem_append.mp hid with hin | hnew
    · exact Nat.lt_succ_of_lt (h2 id hin)
    · have heq : id = s.nextId := by simpa using hnew
      omega
  · intro id hid
    simp only [load_plugin_factory] at hid ⊢
    rcases List.mem_append.mp hid with hin | hnew
    · exact Nat.lt_succ_of_lt (h3 id hin)
    · have heq : id = s.nextId := by simpa using hnew
      omega

lemma invStart_step_nonvec (s : OrchState) (c : Cmd) (hc : isVec c = false)
    (h : InvStart s) : InvStart (step s c) := by
  cases c with
  | loadFactory => exact invStart_loadFactory s h
  | loadSingle p => exact invStart_loadFactory s h
  | loadVec ps => simp [isVec] at hc

lemma invStart_runFrom (cs : List Cmd) :
    ∀ s : OrchState, (∀ c ∈ cs, isVec c = false) → InvStart s → InvStart (runFrom s cs) := by
  induction cs with
  | nil => intro s _ h; exact h
  | cons c cs ih =>
      intro s hall h
      exact ih (step s c) (fun c2 hc2 => hall c2 (List.mem_cons_of_mem c hc2))
        (invStart_step_nonvec s c (hall c (List.mem_cons_self c cs)) h)

lemma invStart_loadVec_of_empty (s : OrchState) (ps : List String)
    (hp : s.plugins = []) (hs : s.starts = []) : InvStart (load_so_vec s ps) := by
  have hnodup : ((List.range (s.libs ++ ps).length).map (fun i => s.nextId + i)).Nodup :=
    (List.nodup_range _).map (fun a b hab => by omega)
  refine ⟨?_, ?_, ?_⟩
  · intro id hid
    simp only [load_so_vec, hp, hs, List.nil_append] at hid ⊢
    exact List.count_eq_one_of_mem hnodup hid
  · intro id hid
    simp only [load_so_vec, hp, hs, List.nil_append, List.mem_map, List.mem_range] at hid ⊢
    obtain ⟨i, hi, rfl⟩ := hid
    omega
  · intro id hid
    simp only [load_so_vec, hp, hs, List.nil_append, List.mem_map, List.mem_range] at hid ⊢
    obtain ⟨i, hi, rfl⟩ := hid
    omega

/-- C2 amended: start() is invoked exactly once per created plugin instance
provided the vector overload of load_so is used at most once and only as the
very first load operation. (As start_once_cex shows, a vector load_so issued
after any prior load operation invokes start() again on every previously
created instance, so the unrestricted claim fails.) -/
theorem start_once_amended (cs : List Cmd) (h : vecOnlyFirst cs = true) :
    ∀ id ∈ (runCmds cs).plugins, (runCmds cs).starts.count id = 1 := by
  have hInv : InvStart (runCmds cs) := by
    cases cs with
    | nil => exact invStart_init
    | cons c rest =>
        have hrest : ∀ c2 ∈ rest, isVec c2 = false := by
          intro c2 hc2
          have := List.all_eq_true.mp h c2 hc2
          simpa using this
        have h0 : InvStart (step runtime_init c) := by
          cases c with
          | loadFactory => exact invStart_loadFactory runtime_init invStart_init
          | loadSingle p => exact invStart_loadFactory runtime_init invStart_init
          | loadVec ps => exact invStart_loadVec_of_empty runtime_init ps rfl rfl
        exact invStart_runFrom rest (step runtime_init c) hrest h0
  exact hInv.1

/-- Witness for start_once_amended: a first vector load of two paths
followed by a factory load starts instance 0 exactly once. -/
theorem start_once_amended_witness :
    (runCmds [Cmd.loadVec ["a", "b"], Cmd.loadFactory]).starts.count 0 = 1 :=
  start_once_amended [Cmd.loadVec ["a", "b"], Cmd.loadFactory] (by decide) 0 (by decide)

lemma writeFrames_fail (dir : String) (d : TexturePose) (hd : d.encodeOk = false)
    (post : List TexturePose) :
    ∀ (pre : List TexturePose) (idx : Nat), (∀ x ∈ pre, x.encodeOk = true) →
    ∃ pfx ts, writeFrames dir idx (pre ++ d :: post) =
      (pfx ++ ILLIXR_abort "Image create failed !!! ", ts, false) := by
  intro pre
  induction pre with
  | nil =>
      intro idx _
      refine ⟨[], [d.durationMs], ?_⟩
      simp [writeFrames, hd]
  | cons x pre ih =>
      intro idx hpre
      have hx : x.encodeOk = true := hpre x (List.mem_cons_self x pre)
      obtain ⟨pfx, ts, heq⟩ := ih (idx + 1) (fun y hy => hpre y (List.mem_cons_of_mem x hy))
      refine ⟨FsAct.writeFile (dir ++ toString idx ++ ".png") ::
              FsAct.writeFile (dir ++ toString idx ++ ".txt") :: pfx,
              x.durationMs :: ts, ?_⟩
      simp [writeFrames, hx, heq]

lemma abortProcess_not_in_writeFrames (dir : String) :
    ∀ (l : List TexturePose) (idx : Nat), FsAct.abortProcess ∉ (writeFrames dir idx l).1 := by
  intro l
  induction l with
  | nil => intro idx; simp [writeFrames]
  | cons d rest ih =>
      intro idx
      by_cases hd : d.encodeOk
      · simp [writeFrames, hd]
        exact ih (idx + 1)
      · simp [writeFrames, hd, ILLIXR_abort]

/-- C4: an image-encode failure is local to the offload plugin: for any
container in which some datum fails to encode (all earlier ones encoding
fine), writeDataToDisk ends its action trace with the error report and the
plugin-operation abort, performing nothing afterwards (no pose write for the
failing frame, no later frames, no metadata); and no writeDataToDisk run on
any container ever emits a whole-process abort. -/
theorem encode_failure_local (dir : String) (pre post : List TexturePose) (d : TexturePose)
    (hpre : ∀ x ∈ pre, x.encodeOk = true) (hd : d.encodeOk = false) :
    (∃ pfx, (writeDataToDisk dir (pre ++ d :: post)).1 =
        pfx ++ [FsAct.reportError "Image create failed !!! ", FsAct.abortPluginOp]) ∧
    (∀ container : List TexturePose, FsAct.abortProcess ∉ (writeDataToDisk dir container).1) := by
  constructor
  · obtain ⟨pfx, ts, heq⟩ := writeFrames_fail dir d hd post pre 0 hpre
    refine ⟨pfx, ?_⟩
    simp [writeDataToDisk, heq, ILLIXR_abort]
  · intro container
    have hnp := abortProcess_not_in_writeFrames dir container 0
    unfold writeDataToDisk
    by_cases hok : (writeFrames dir 0 container).2.2
    · cases hm : writeMetadata (writeFrames dir 0 container).2.1 with
      | none => simp [hok, hm]; exact hnp
      | some m =>
          simp [hok, hm]
          exact hnp
    · simp [hok]
      exact hnp

/-- Witness for encode_failure_local at a one-element container whose datum
fails to encode. -/
theorem encode_failure_local_witness :
    (∃ pfx, (writeDataToDisk "out/" ([] ++ TexturePose.mk false 5 :: [])).1 =
        pfx ++ [FsAct.reportError "Image create failed !!! ", FsAct.abortPluginOp]) ∧
    (∀ container : List TexturePose, FsAct.abortProcess ∉ (writeDataToDisk "out/" container).1) :=
  encode_failure_local "out/" [] [] (TexturePose.mk false 5) (by simp) rfl

lemma lookup_append_right (pb q : Phonebook) (c : Capability)
    (h : lookup_impl pb c = none) :
    lookup_impl (pb ++ q) c = lookup_impl q c := by
  induction pb with
  | nil => simp
  | cons e rest ih =>
      by_cases he : e.1 = c
      · exfalso
        unfold lookup_impl at h
        rw [List.find?_cons_of_pos _ (by simp [he])] at h
        simp at h
      · unfold lookup_impl at h ⊢
        rw [List.cons_append, List.find?_cons_of_neg _ (by simp [he])]
        rw [List.find?_cons_of_neg _ (by simp [he])] at h
        exact ih h

/-- C7: a capability registered exactly once resolves to the registered
instance: a successful register_impl makes every subsequent lookup_impl of
that capability return exactly the instance that was installed (and lookups
are pure, so every call agrees). In particular the offload plugin, which
looks the switchboard up in its constructor, binds exactly the switchboard
instance the orchestrator constructor registered. -/
theorem registry_lookup_spec (pb pb2 : Phonebook) (c : Capability) (i : Nat)
    (e : Bool) (d : String) (hreg : register_impl pb c i = some pb2) :
    lookup_impl pb2 c = some i ∧
    (Capability.switchboard, builtin_inst Capability.switchboard) ∈ runtime_init.pb ∧
    offload_mk runtime_init.pb e d =
      some { sb := builtin_inst Capability.switchboard, enable_offload := e, obj_dir := d } := by
  refine ⟨?_, by simp [runtime_init, builtin_inst], rfl⟩
  unfold register_impl at hreg
  cases hlk : lookup_impl pb c with
  | some j => rw [hlk] at hreg; cases hreg
  | none =>
      rw [hlk] at hreg
      simp only [Option.some.injEq] at hreg
      rw [← hreg, lookup_append_right pb [(c, i)] c hlk]
      simp [lookup_impl]

/-- Witness for registry_lookup_spec: registering the switchboard as
instance 7 into an empty phonebook and looking it up returns instance 7. -/
theorem registry_lookup_spec_witness :
    lookup_impl [(Capability.switchboard, 7)] Capability.switchboard = some 7 ∧
    (Capability.switchboard, builtin_inst Capability.switchboard) ∈ runtime_init.pb ∧
    offload_mk runtime_init.pb true "p" =
      some { sb := builtin_inst Capability.switchboard, enable_offload := true, obj_dir := "p" } :=
  registry_lookup_spec [] [(Capability.switchboard, 7)] Capability.switchboard 7 true "p" rfl

/-- C9: with offloading disabled the offload destructor performs no
filesystem action at all; with offloading enabled its first two actions are
the recursive removal of the whole output directory followed by its
recreation (before any write), and applying those two actions to any
existing file set destroys every file previously present under the output
path. -/
theorem offload_dtor_fs_spec (dir : String) (container : List TexturePose)
    (files : List String) (f : String) (_hf : f ∈ files) (hunder : underDir dir f = true) :
    (offload_dtor false dir container).1 = [] ∧
    (∃ rest, (offload_dtor true dir container).1 =
        FsAct.removeAll dir :: FsAct.createDirs dir :: rest) ∧
    f ∉ applyActs files [FsAct.removeAll dir, FsAct.createDirs dir] := by
  refine ⟨rfl, ⟨(writeDataToDisk dir container).1, rfl⟩, ?_⟩
  simp only [applyActs, applyAct]
  intro hmem
  rw [List.mem_filter] at hmem
  exact absurd hmem.2 (by simp [hunder])

/-- Witness for offload_dtor_fs_spec at a concrete directory, file and
container. -/
theorem offload_dtor_fs_spec_witness :
    (offload_dtor false "m/" []).1 = [] ∧
    (∃ rest, (offload_dtor true "m/" []).1 =
        FsAct.removeAll "m/" :: FsAct.createDirs "m/" :: rest) ∧
    "m/x" ∉ applyActs ["m/x"] [FsAct.removeAll "m/", FsAct.createDirs "m/"] :=
  offload_dtor_fs_spec "m/" [] ["m/x"] "m/x" (by simp) (by decide)

lemma le_scanMax_self : ∀ (l : List Int) (t : Int), t ≤ scanMax t l := by
  intro l
  induction l with
  | nil => intro t; exact le_refl t
  | cons x l ih => intro t; exact le_trans (le_max_left t x) (ih (max t x))

lemma le_scanMax_of_mem : ∀ (l : List Int) (t x : Int), x ∈ l → x ≤ scanMax t l := by
  intro l
  induction l with
  | nil => intro t x hx; cases hx
  | cons y l ih =>
      intro t x hx
      rcases List.mem_cons.mp hx with rfl | hx2
      · exact le_trans (le_max_right t x) (le_scanMax_self l (max t x))
      · exact ih (max t y) x hx2

lemma scanMax_mem : ∀ (l : List Int) (t : Int), scanMax t l ∈ t :: l := by
  intro l
  induction l with
  | nil => intro t; simp [scanMax]
  | cons x l ih =>
      intro t
      have h := ih (max t x)
      have hg : scanMax t (x :: l) = scanMax (max t x) l := rfl
      rw [hg]
      rcases List.mem_cons.mp h with heq | hmem
      · rw [heq]
        rcases max_choice t x with hc | hc
        · rw [hc]; exact List.mem_cons_self t (x :: l)
        · rw [hc]; exact List.mem_cons_of_mem t (List.mem_cons_self x l)
      · exact List.mem_cons_of_mem t (List.mem_cons_of_mem x hmem)

lemma scanMin_le_self : ∀ (l : List Int) (t : Int), scanMin t l ≤ t := by
  intro l
  induction l with
  | nil => intro t; exact le_refl t
  | cons x l ih => intro t; exact le_trans (ih (min t x)) (min_le_left t x)

lemma scanMin_le_of_mem : ∀ (l : List Int) (t x : Int), x ∈ l → scanMin t l ≤ x := by
  intro l
  induction l with
  | nil => intro t x hx; cases hx
  | cons y l ih =>
      intro t x hx
      rcases List.mem_cons.mp hx with rfl | hx2
      · exact le_trans (scanMin_le_self l (min t x)) (min_le_right t x)
      · exact ih (min t y) x hx2

lemma scanMin_mem : ∀ (l : List Int) (t : Int), scanMin t l ∈ t :: l := by
  intro l
  induction l with
  | nil => intro t; simp [scanMin]
  | cons x l ih =>
      intro t
      have h := ih (min t x)
      have hg : scanMin t (x :: l) = scanMin (min t x) l := rfl
      rw [hg]
      rcases List.mem_cons.mp h with heq | hmem
      · rw [heq]
        rcases min_choice t x with hc | hc
        · rw [hc]; exact List.mem_cons_self t (x :: l)
        · rw [hc]; exact List.mem_cons_of_mem t (List.mem_cons_self x l)
      · exact List.mem_cons_of_mem t (List.mem_cons_of_mem x hmem)

lemma cmpDescLe_trans (a b c : Int) (h1 : cmpDescLe a b = true) (h2 : cmpDescLe b c = true) :
    cmpDescLe a c = true := by
  simp only [cmpDescLe, decide_eq_true_eq] at h1 h2 ⊢
  exact le_trans h2 h1

lemma cmpDescLe_total (a b : Int) : (cmpDescLe a b || cmpDescLe b a) = true := by
  simp only [cmpDescLe, Bool.or_eq_true, decide_eq_true_eq]
  exact le_total (toInt32 b) (toInt32 a)

/-- Counterexample to C10 as stated: at the empty time sequence the stdev
divisor computed by writeMetadata, _time_seq.size() - 1 in size_t
arithmetic, is not zero-sized: the unsigned subtraction wraps around to
2 ^ 64 - 1. -/
theorem stdev_divisor_cex :
    stdevDivisorOf [] = 2 ^ 64 - 1 ∧ stdevDivisorOf [] ≠ 0 := by
  constructor <;> decide

/-- C10 amended: writeMetadata is well-defined exactly on nonempty time
sequences. For every nonempty input it produces the metadata record: the
mean with its divisor (the sequence length), the true maximum and minimum
(as elements of the sequence bounding it), the stdev operands with the
size_t divisor length - 1, the total count, the raw sequence, and a
permutation of the sequence sorted descending under the comparator of the
source, which compares elements after narrowing them to int. For the empty
input the max_element and min_element dereferences are past the end, the
mean divisor is zero and the stdev divisor wraps around to 2 ^ 64 - 1, so
the call is well-defined only under the precondition that at least one
event was received. -/
theorem writeMetadata_spec (ts : List Int) (hne : ts ≠ []) :
    (∃ m : MetaOut, writeMetadata ts = some m ∧
      m.meanDivisor = ts.length ∧
      m.mean = ((ts.map (fun x => (x : ℚ))).sum) / (ts.length : ℚ) ∧
      m.maxv ∈ ts ∧ (∀ x ∈ ts, x ≤ m.maxv) ∧
      m.minv ∈ ts ∧ (∀ x ∈ ts, m.minv ≤ x) ∧
      m.raw = ts ∧
      m.total = ts.length ∧
      m.ordered.Perm ts ∧
      List.Pairwise (fun a b => toInt32 b ≤ toInt32 a) m.ordered ∧
      m.stdevDivisor = sizeT_sub_one ts.length) ∧
    writeMetadata [] = none := by
  obtain ⟨t, rest, rfl⟩ : ∃ t rest, ts = t :: rest := by
    cases ts with
    | nil => exact absurd rfl hne
    | cons a b => exact ⟨a, b, rfl⟩
  refine ⟨⟨_, rfl, rfl, rfl, scanMax_mem rest t, ?_, scanMin_mem rest t, ?_, rfl, rfl, ?_, ?_, rfl⟩, rfl⟩
  · intro x hx
    rcases List.mem_cons.mp hx with rfl | hx2
    · exact le_scanMax_self rest x
    · exact le_scanMax_of_mem rest t x hx2
  · intro x hx
    rcases List.mem_cons.mp hx with rfl | hx2
    · exact scanMin_le_self rest x
    · exact scanMin_le_of_mem rest t x hx2
  · exact List.mergeSort_perm (t :: rest) cmpDescLe
  · exact (List.sorted_mergeSort cmpDescLe_trans cmpDescLe_total (t :: rest)).imp
      (fun hab => by simpa only [cmpDescLe, decide_eq_true_eq] using hab)

/-- Witness for writeMetadata_spec at the concrete sequence 3, 1, 2. -/
theorem writeMetadata_spec_witness :
    (∃ m : MetaOut, writeMetadata [3, 1, 2] = some m ∧
      m.meanDivisor = ([3, 1, 2] : List Int).length ∧
      m.mean = ((([3, 1, 2] : List Int).map (fun x => (x : ℚ))).sum) /
        ((([3, 1, 2] : List Int).length : ℚ)) ∧
      m.maxv ∈ ([3, 1, 2] : List Int) ∧ (∀ x ∈ ([3, 1, 2] : List Int), x ≤ m.maxv) ∧
      m.minv ∈ ([3, 1, 2] : List Int) ∧ (∀ x ∈ ([3, 1, 2] : List Int), m.minv ≤ x) ∧
      m.raw = ([3, 1, 2] : List Int) ∧
      m.total = ([3, 1, 2] : List Int).length ∧
      m.ordered.Perm ([3, 1, 2] : List Int) ∧
      List.Pairwise (fun a b => toInt32 b ≤ toInt32 a) m.ordered ∧
      m.stdevDivisor = sizeT_sub_one ([3, 1, 2] : List Int).length) ∧
    writeMetadata [] = none :=
  writeMetadata_spec [3, 1, 2] (by decide)

end ILLIXR
